import Mathlib

/-!
# Verification of `conceptnet_sqlite.base` (KnowledgeBase orchestration)

Shallow embedding of `src/conceptnet_sqlite/base.py` and proofs about its
cache-lifecycle, ingestion and path-resolution behaviour.

Modelling conventions:
* Filesystem paths are normalized strings without trailing separators; the
  filesystem is the list of paths that exist.
* Python exceptions are modelled with `Except PyError`; `TypeError`,
  `ValueError` and `AttributeError` are the ones the source can raise.
* External collaborators (`sqlalchemy` sessions, `TripletStore`, `Vocab`,
  `tqdm`, the loader) are modelled only through the calls `base.py` makes to
  them, with explicit failure schedules where a call may raise.
-/

set_option maxRecDepth 8000

/-- The Python exception kinds relevant to `base.py`. -/
inductive PyError
  | typeError
  | valueError
  | attributeError
  deriving DecidableEq, Repr

/-- A filesystem: the list of paths that exist (no duplicates are ever
created; removal deletes every occurrence). -/
abbrev FS := List String

/-- Model of `os.path.exists` / `Path.exists`. -/
def FS.pathExists (fs : FS) (p : String) : Bool := fs.contains p

/-- Creating a file (e.g. `Base.metadata.create_all` on a fresh sqlite URL). -/
def FS.createFile (fs : FS) (p : String) : FS :=
  if fs.pathExists p then fs else p :: fs

/-- Model of `os.remove`: deletion of one path. -/
def FS.removeFile (fs : FS) (p : String) : FS :=
  fs.filter (fun q => q ≠ p)

/-- Split a character list at every occurrence of `c` (the pieces, in order,
never empty as a list of pieces). -/
def splitOnChar (c : Char) : List Char → List (List Char)
  | [] => [[]]
  | x :: xs =>
    match splitOnChar c xs with
    | [] => if x = c then [[], []] else [[x]]
    | y :: ys => if x = c then [] :: y :: ys else (x :: y) :: ys

/-- Model of `PurePath.name`: the final path component. -/
def pathName (p : String) : String :=
  String.mk ((splitOnChar '/' p.data).getLastD [])

/-- Model of `input_path.with_name(f"{input_path.name}.db")` (base.py line 40): the
final component gets `.db` appended, which for a normalized path is the same
as appending `.db` to the whole string. -/
def withNameDb (p : String) : String := p ++ ".db"

/-- Model of `PurePath.stem`: the final component with its last extension removed. -/
def pathStem (p : String) : String :=
  let parts := splitOnChar '.' (pathName p).data
  if parts.length ≤ 1 then pathName p
  else String.mk (List.intercalate ['.'] parts.dropLast)

/-- Embedding of `get_cache_dir` (base.py lines 26-29): `Path(base_dir)` raises a
`TypeError` when `base_dir` is `None`; otherwise the directory is created if
absent and returned (directory creation and `absolute().expanduser()` are
modelled as the identity on the path string). -/
def get_cache_dir (base_dir : Option String) : Except PyError String :=
  match base_dir with
  | none => .error .typeError
  | some d => .ok d

/-- The `name_or_path` argument of `get_kb_path`: the source distinguishes
`str` from `Path` with `isinstance(name_or_path, str)`. -/
inductive NameOrPath
  | str (s : String)
  | path (p : String)
  deriving DecidableEq, Repr

/-- The raw string underlying a `name_or_path` argument. -/
def NameOrPath.raw : NameOrPath → String
  | .str s => s
  | .path p => p

/-- The check `isinstance(name_or_path, str)`. -/
def NameOrPath.isStr : NameOrPath → Bool
  | .str _ => true
  | .path _ => false

/-- Embedding of `get_kb_path` (base.py lines 32-51), returning the resolved path and the
filesystem after any store initialization. Mirrors the source branch by
branch:
* `kb_cache_dir = get_cache_dir(cache_dir) / "kb"`;
* `input_path = Path(name_or_path).with_name(name + ".db")`;
* if that path does not exist and the argument is a `str`, re-root it under
  the cache dir and initialize a fresh store there when `create` is set;
* elif the path exists, re-prefix the name with `default/`;
* else raise `ValueError("invalid path")`;
* return `kb_cache_dir / f"{name_or_path}.db"`. -/
def get_kb_path (fs : FS) (name_or_path : NameOrPath)
    (cache_dir : Option String) (create : Bool) :
    Except PyError (String × FS) := do
  let cd ← get_cache_dir cache_dir
  let kbCacheDir := cd ++ "/kb"
  let inputPath := withNameDb name_or_path.raw
  if !fs.pathExists inputPath && name_or_path.isStr then
    let inputPath := kbCacheDir ++ "/" ++ name_or_path.raw ++ ".db"
    let fs := if !fs.pathExists inputPath && create then fs.createFile inputPath else fs
    pure (kbCacheDir ++ "/" ++ name_or_path.raw ++ ".db", fs)
  else if fs.pathExists inputPath then
    pure (kbCacheDir ++ "/" ++ ("default/" ++ pathStem inputPath) ++ ".db", fs)
  else
    throw .valueError

/-! ## Bulk ingestion (`KnowledgeBase.from_loader`, base.py lines 166-192) -/

/-- The transactional state of the ingestion session: `committed` records are
durable, `pending` records have been added via `Edge.from_dict(..., commit=False)`
but not committed, and `commits` counts the `session.commit()` attempts made
so far. -/
structure IngestState where
  committed : Nat
  pending : Nat
  commits : Nat
  deriving DecidableEq, Repr

/-- The session state before any record is processed. -/
def initIngest : IngestState := ⟨0, 0, 0⟩

/-- One `try: session.commit() except: session.rollback(); raise` block from
the source. `fail c = true` means the `c`-th commit attempt raises; the
rollback then discards the pending records, the committed ones stay durable,
and the error is re-raised (modelled by `Except.error` carrying the session
state the caller observes). -/
def tryCommit (fail : Nat → Bool) (st : IngestState) : Except IngestState IngestState :=
  if fail (st.commits + 1) then
    .error { st with pending := 0, commits := st.commits + 1 }
  else
    .ok { committed := st.committed + st.pending, pending := 0, commits := st.commits + 1 }

/-- The ingestion loop of `from_loader` over the remaining 0-based record
positions (`for i, val in enumerate(loader.iterrows())`): each record is added
to the session uncommitted, a commit is attempted whenever `i % 100 == 0`, and
one final commit runs after the stream is exhausted. -/
def ingestFrom (fail : Nat → Bool) : List Nat → IngestState → Except IngestState IngestState
  | [], st => tryCommit fail st
  | i :: rest, st =>
    let st1 : IngestState := { st with pending := st.pending + 1 }
    if i % 100 == 0 then
      match tryCommit fail st1 with
      | .error e => .error e
      | .ok st2 => ingestFrom fail rest st2
    else
      ingestFrom fail rest st1

/-- Embedding of `KnowledgeBase.from_loader` ingestion of a stream of `n` edge records,
with commit-failure schedule `fail` over commit ordinals. -/
def from_loader_ingest (fail : Nat → Bool) (n : Nat) : Except IngestState IngestState :=
  ingestFrom fail (List.range n) initIngest

/-- Records committed by the first `k - 1` commits of an ingestion run: the
first commit fires at position 0 (1 record), each later in-loop commit adds
100 more. -/
def committedBeforeCommit (k : Nat) : Nat :=
  if k ≤ 1 then 0 else (k - 2) * 100 + 1

/-- The state transformation of one successful 100-record block. -/
def blockStep (st : IngestState) : IngestState :=
  ⟨st.committed + st.pending + 1, 99, st.commits + 1⟩

/-! ## Vocabulary build batching (`KnowledgeBase.get_vocab`, base.py lines 126-164) -/

/-- The node-batching loop of `get_vocab`:
`for i, node in enumerate(...): nodes.append(node); if i % batch_size == 0:
vocab.extend(nodes); nodes = []` followed by `if nodes: vocab.extend(nodes)`.
Arguments: remaining stream, current 0-based index `i`, current `nodes`
buffer; result: the successive batches passed to `vocab.extend`. -/
def vocabLoop {α : Type} (B : Nat) : List α → Nat → List α → List (List α)
  | [], _, buf => if buf.isEmpty then [] else [buf]
  | x :: xs, i, buf =>
    let buf1 := buf ++ [x]
    if i % B == 0 then buf1 :: vocabLoop B xs (i + 1) []
    else vocabLoop B xs (i + 1) buf1

/-- The sequence of `vocab.extend(...)` calls issued by `get_vocab` on node
stream `ns`. The source fixes `batch_size = int(1e4)`; the batch size `B` is
kept symbolic since the loop uses it only through `i % batch_size`. -/
def extendCalls {α : Type} (B : Nat) (ns : List α) : List (List α) :=
  vocabLoop B ns 0 []

/-! ## Triplet index lifecycle (`KnowledgeBase._get_or_create_index`,
base.py lines 92-104) -/

/-- The persistent `TripletStore` state, with scan-count instrumentation:
`frozen` is the completeness flag, `contents` the triples added so far, and
`scanCount` counts backing-store edge scans performed against it. -/
structure IndexState where
  frozen : Bool
  contents : List (Nat × Nat × Nat)
  scanCount : Nat
  deriving DecidableEq, Repr

/-- Embedding of `_get_or_create_index` on backing-store edges `edges`: if the index is
frozen it is returned unchanged, with no scan. Otherwise all edges are
streamed from the store (one scan) and bulk-added, and only after the whole
stream has been added does `index.frozen = True` run. `failAt = some j` models
the scan/`add` raising after `j` triples: the exception propagates and the
assignment to `frozen` is never reached. -/
def getOrCreateIndex (edges : List (Nat × Nat × Nat)) (failAt : Option Nat)
    (idx : IndexState) : Except IndexState IndexState :=
  if idx.frozen then .ok idx
  else
    let scanned : IndexState := { idx with scanCount := idx.scanCount + 1 }
    match failAt with
    | some j => .error { scanned with contents := scanned.contents ++ edges.take j }
    | none =>
      .ok { frozen := true, contents := scanned.contents ++ edges,
            scanCount := scanned.scanCount }

/-! ## Vocabulary build-and-swap (`get_vocab`, base.py lines 126-164) -/

/-- The two vocabulary file locations: `final` is the content at
`<stem>-vocab.db`, `tmp` the content at `<stem>-vocab.db.tmp`; `none` means
the path does not exist. -/
structure VocabFS where
  final : Option (List Nat)
  tmp : Option (List Nat)
  deriving DecidableEq, Repr

/-- The filesystem actions `get_vocab` can perform, in source order:
`os.remove(vocab_db_temp_path)`, creating the temp database via
`Vocab(tmp_config)`, one `vocab.extend(nodes)` batch written to the temp
database, and the atomic `shutil.move(vocab_db_temp_path, vocab_db_path)`. -/
inductive VAct
  | removeTmp
  | initTmp
  | writeBatch (b : List Nat)
  | moveTmp
  deriving DecidableEq, Repr

/-- Effect of one action on the two vocabulary paths. -/
def applyVAct (fs : VocabFS) : VAct → VocabFS
  | .removeTmp => { fs with tmp := none }
  | .initTmp => { fs with tmp := some [] }
  | .writeBatch b => { fs with tmp := some (fs.tmp.getD [] ++ b) }
  | .moveTmp => ⟨fs.tmp, none⟩

/-- The action sequence of one `get_vocab` call on node stream `ns` with
batch size `B`, mirroring the source: if the final vocabulary file exists it
is opened directly and nothing is written; otherwise any stale temp file is
removed first, the temp database is created, every `extend` batch is written
to it, and the temp file is moved to the final path last. -/
def vocabActions (fs : VocabFS) (B : Nat) (ns : List Nat) : List VAct :=
  if fs.final.isSome then []
  else
    (if fs.tmp.isSome then [VAct.removeTmp] else [])
      ++ [VAct.initTmp]
      ++ (extendCalls B ns).map VAct.writeBatch
      ++ [VAct.moveTmp]

/-- A completed `get_vocab` call, as its effect on the two paths. -/
def runVocab (fs : VocabFS) (B : Nat) (ns : List Nat) : VocabFS :=
  (vocabActions fs B ns).foldl applyVAct fs

/-- A `get_vocab` call interrupted after its first `k` filesystem actions. -/
def runVocabInterrupted (fs : VocabFS) (B : Nat) (ns : List Nat) (k : Nat) : VocabFS :=
  ((vocabActions fs B ns).take k).foldl applyVAct fs

/-! ## Store-location resolution outcomes (`get_kb_path`) -/

instance {α β : Type} [DecidableEq α] [DecidableEq β] : DecidableEq (Except α β) :=
  fun a b =>
    match a, b with
    | .ok x, .ok y => decidable_of_iff (x = y) (by simp)
    | .error x, .error y => decidable_of_iff (x = y) (by simp)
    | .ok _, .error _ => isFalse (fun h => Except.noConfusion h)
    | .error _, .ok _ => isFalse (fun h => Except.noConfusion h)

/-! ## `KnowledgeBase` attributes, `__init__` and `from_loader` preamble -/

/-- The kinds of values a `KnowledgeBase` instance attribute can hold:
the resolved path, the engine, the `TripletStore`, the `NodeIndex`, a
label-to-ids dictionary, or a `Session` object. -/
inductive PyVal
  | pathV (p : String)
  | engineV
  | tripletStoreV
  | nodeIndexV
  | dictV (d : List (String × List Nat))
  | sessionV
  deriving DecidableEq, Repr

/-- The attribute dictionary of a `KnowledgeBase` instance as `__init__`
(base.py lines 55-75) leaves it. The only assignments to `self.*` anywhere in
the class are `self.path`, `self.engine`, `self.index` and `self.node_index`,
all in `__init__`; in particular no code path assigns `self.label2index`
(`_create_label2index`, lines 79-86, is defined but never called), and no
session object is ever stored on `self`. -/
def kbInitAttrs (path : String) : List (String × PyVal) :=
  [("path", .pathV path), ("engine", .engineV), ("index", .tripletStoreV),
   ("node_index", .nodeIndexV)]

/-- Python attribute access: `self.<name>` raises `AttributeError` when the
attribute was never assigned. -/
def getattr (attrs : List (String × PyVal)) (name : String) : Except PyError PyVal :=
  match attrs.lookup name with
  | some v => .ok v
  | none => .error .attributeError

/-- Embedding of `get_node_ids_by_label` (base.py lines 76-77):
`return self.label2index.get(label, set())`. -/
def get_node_ids_by_label (attrs : List (String × PyVal)) (label : String) :
    Except PyError (List Nat) := do
  let d ← getattr attrs "label2index"
  match d with
  | .dictV m => pure ((m.lookup label).getD [])
  | _ => throw .attributeError

/-- Embedding of `KnowledgeBase.__init__` (base.py lines 55-75) as path resolution plus
attribute assignment; engine creation, the WAL pragma and index/node-index
construction are opaque attribute values here (their lifecycles are modelled
separately above). -/
def kbInit (fs : FS) (name_or_path : NameOrPath) (create : Bool)
    (cache_dir : Option String) :
    Except PyError (List (String × PyVal) × FS) := do
  let r ← get_kb_path fs name_or_path cache_dir create
  pure (kbInitAttrs r.1, r.2)

/-- Model of `str.isidentifier`, restricted to ASCII: nonempty, first character a
letter or underscore, remaining characters letters, digits or underscores. -/
def pyIsIdentifier (s : String) : Bool :=
  match s.data with
  | [] => false
  | c :: cs =>
    (c.isAlpha || c = '_') && cs.all (fun d => d.isAlpha || d.isDigit || d = '_')

/-- The loader metadata consumed by `from_loader`. -/
structure LoaderConfig where
  identifier : String
  version : Option String
  deriving DecidableEq, Repr

/-- The construction phase of `KnowledgeBase.from_loader` (base.py lines
166-172): default the version to `"0.0.1"`, validate the identifier, derive
the database name `<identifier>/<identifier>-v<version>`, and construct the
`KnowledgeBase` with `create=True` — passing no `cache_dir`, so the
constructor sees its default `None`. -/
def from_loader_init (cfg : LoaderConfig) (fs : FS) :
    Except PyError (List (String × PyVal) × FS) :=
  let version := cfg.version.getD "0.0.1"
  if !pyIsIdentifier cfg.identifier then
    throw .valueError
  else
    kbInit fs (.str (cfg.identifier ++ "/" ++ (cfg.identifier ++ "-v" ++ version)))
      true none

/-! ## Session scoping (`KnowledgeBase.session`, base.py lines 106-108) -/

/-- Session lifecycle events. -/
inductive SessEvent
  | acquireSession
  | releaseSession
  deriving DecidableEq, Repr

/-- The `@contextmanager def session` generator body is the single statement
`yield Session(self.engine)`: entry (before the yield) creates one new
session. -/
def sessionEnter : List SessEvent := [.acquireSession]

/-- Statements run after the yield on normal exit: none — the body ends at
the yield, with no `close()` call. -/
def sessionExitNormal : List SessEvent := []

/-- Statements run after the yield when the `with` body raises: none — there
is no `try/finally` around the yield, so the exception propagates without any
cleanup statement executing. -/
def sessionExitError : List SessEvent := []

/-- The session-event trace of one `with self.session() as session:` block
whose body produces events `body` and raises iff `raises`. -/
def sessionTrace (body : List SessEvent) (raises : Bool) : List SessEvent :=
  sessionEnter ++ body ++ (if raises then sessionExitError else sessionExitNormal)

/-! ## Cleanup (`KnowledgeBase.cleanup`, base.py lines 110-113) -/

/-- Model of `PurePath.with_suffix(suf)`: the final component's last extension is
dropped and `suf` appended. -/
def withSuffix (p suf : String) : String :=
  String.mk (p.data.take (p.data.length - (pathName p).data.length)
    ++ (pathStem p).data ++ suf.data)

/-- Triplet-index location: `str(self.path.with_suffix("")) + "-index"`
(base.py line 94). -/
def indexPath (p : String) : String := withSuffix p "" ++ "-index"

/-- Node-index location: `self.path.with_suffix(".node.db")` (base.py
line 75). -/
def nodeIndexPath (p : String) : String := withSuffix p ".node.db"

/-- Vocabulary location: `self.path.with_name(self.path.stem + "-vocab.db")`
(base.py line 129). -/
def vocabPathOf (p : String) : String := withSuffix p "" ++ "-vocab.db"

/-- Embedding of `KnowledgeBase.cleanup` (base.py lines 110-113): return if the primary
store file does not exist, else `os.remove(self.path)` — nothing else is
removed. -/
def cleanup (fs : FS) (path : String) : FS :=
  if !fs.pathExists path then fs else fs.removeFile path

/-! ## Lemmas and claim theorems -/

/-- Unfolding: the empty stream performs the final commit. -/
theorem ingestFrom_nil (fail : Nat → Bool) (st : IngestState) :
    ingestFrom fail [] st = tryCommit fail st := rfl

/-- Unfolding: a position on a commit boundary adds the record and attempts a
commit. -/
theorem ingestFrom_cons_commit (fail : Nat → Bool) (i : Nat) (rest : List Nat)
    (st : IngestState) (hi : i % 100 = 0) :
    ingestFrom fail (i :: rest) st =
      match tryCommit fail { st with pending := st.pending + 1 } with
      | .error e => .error e
      | .ok st2 => ingestFrom fail rest st2 := by
  simp [ingestFrom, hi]

/-- Unfolding: a position off the commit boundary only adds the record. -/
theorem ingestFrom_cons_skip (fail : Nat → Bool) (i : Nat) (rest : List Nat)
    (st : IngestState) (hi : i % 100 ≠ 0) :
    ingestFrom fail (i :: rest) st
      = ingestFrom fail rest { st with pending := st.pending + 1 } := by
  have hguard : (i % 100 == 0) = false := by simpa using hi
  simp [ingestFrom, hguard]

/-- A run of positions none of which is a commit boundary only accumulates
pending records. -/
theorem ingestFrom_no_commit_run (fail : Nat → Bool) (j : Nat) :
    ∀ (i : Nat) (rest : List Nat) (st : IngestState),
      (∀ t, t < j → (i + t) % 100 ≠ 0) →
      ingestFrom fail (List.range' i j ++ rest) st
        = ingestFrom fail rest { st with pending := st.pending + j } := by
  induction j with
  | zero => intro i rest st _; simp [List.range']
  | succ j ih =>
    intro i rest st h
    obtain ⟨c, p, m⟩ := st
    rw [List.range'_succ, List.cons_append]
    rw [ingestFrom_cons_skip fail i _ _ (by simpa using h 0 (Nat.succ_pos j))]
    rw [ih (i + 1) rest ⟨c, p + 1, m⟩ (fun t ht => by
      have h2 := h (t + 1) (Nat.succ_lt_succ ht)
      have he : i + 1 + t = i + (t + 1) := by omega
      rw [he]; exact h2)]
    have he2 : p + 1 + j = p + (j + 1) := by omega
    simp only [he2]

/-- One full 100-record block starting on a commit boundary, whose commit
succeeds: the boundary record is committed together with everything pending,
and the 99 following records are left pending. -/
theorem ingestFrom_block (fail : Nat → Bool) (i : Nat) (rest : List Nat)
    (st : IngestState) (hi : i % 100 = 0)
    (hfail : fail (st.commits + 1) = false) :
    ingestFrom fail (List.range' i 100 ++ rest) st
      = ingestFrom fail rest ⟨st.committed + st.pending + 1, 99, st.commits + 1⟩ := by
  obtain ⟨c, p, m⟩ := st
  have hsplit : List.range' i 100 = i :: List.range' (i + 1) 99 := List.range'_succ i 99 1
  rw [hsplit, List.cons_append]
  rw [ingestFrom_cons_commit fail i _ _ hi]
  simp only [tryCommit, hfail, Bool.false_eq_true, if_false]
  exact ingestFrom_no_commit_run fail 99 (i + 1) rest ⟨c + (p + 1), 0, m + 1⟩
    (fun t ht => by omega)

/-- Running `k` consecutive successful blocks starting on a commit boundary. -/
theorem ingestFrom_blocks (fail : Nat → Bool) (k : Nat) :
    ∀ (i : Nat) (rest : List Nat) (st : IngestState), i % 100 = 0 →
      (∀ t, t < k → fail (st.commits + t + 1) = false) →
      ingestFrom fail (List.range' i (k * 100) ++ rest) st
        = ingestFrom fail rest (blockStep^[k] st) := by
  induction k with
  | zero => intro i rest st _ _; simp
  | succ k ih =>
    intro i rest st hi hfail
    have hsplit : List.range' i ((k + 1) * 100)
        = List.range' i 100 ++ List.range' (i + 100) (k * 100) := by
      rw [List.range'_append_1 i 100 (k * 100)]
      congr 1
      ring
    rw [hsplit, List.append_assoc]
    rw [ingestFrom_block fail i _ st hi (by simpa using hfail 0 (Nat.succ_pos k))]
    rw [ih (i + 100) rest ⟨st.committed + st.pending + 1, 99, st.commits + 1⟩
      (by omega) (fun t ht => by
        show fail (st.commits + 1 + t + 1) = false
        have h2 := hfail (t + 1) (Nat.succ_lt_succ ht)
        have he : st.commits + 1 + t + 1 = st.commits + (t + 1) + 1 := by omega
        rw [he]; exact h2)]
    rw [Function.iterate_succ_apply]
    rfl

/-- Closed form of the state after `k` successful blocks from the initial
session state. -/
theorem blockStep_iterate (k : Nat) (hk : 1 ≤ k) :
    blockStep^[k] initIngest = ⟨(k - 1) * 100 + 1, 99, k⟩ := by
  induction k with
  | zero => omega
  | succ k ih =>
    rw [Function.iterate_succ_apply']
    rcases Nat.eq_zero_or_pos k with hk0 | hk1
    · subst hk0; rfl
    · rw [ih hk1]
      show IngestState.mk ((k - 1) * 100 + 1 + 99 + 1) 99 (k + 1)
          = IngestState.mk ((k + 1 - 1) * 100 + 1) 99 (k + 1)
      refine congrArg (fun x => IngestState.mk x 99 (k + 1)) ?_
      omega

/-- C1 (amended): in an ingestion run whose `k`-th commit raises, the session
is rolled back (no pending records survive), the error is re-raised to the
caller, and exactly `committedBeforeCommit k` records stay committed: `0` when
`k = 1` and `(k - 2) * 100 + 1` when `k ≥ 2`, because in-loop commits fire at
0-based positions `0, 100, 200, ...` (`i % 100 == 0`), i.e. after the 1st,
101st, 201st, ... record, not after every 100th. -/
theorem from_loader_commit_failure (n k : Nat) (hk : 1 ≤ k)
    (hn : (k - 1) * 100 < n) :
    from_loader_ingest (fun c => c == k) n
      = .error ⟨committedBeforeCommit k, 0, k⟩ := by
  have hst : blockStep^[k - 1] initIngest
      = ⟨committedBeforeCommit k, if k = 1 then 0 else 99, k - 1⟩ := by
    rcases Nat.lt_or_ge k 2 with hk1 | hk2
    · have hke : k = 1 := by omega
      subst hke
      rfl
    · rw [blockStep_iterate (k - 1) (by omega)]
      have h1 : k - 1 - 1 = k - 2 := by omega
      simp only [committedBeforeCommit, h1]
      rw [if_neg (by omega), if_neg (by omega)]
  unfold from_loader_ingest
  rw [List.range_eq_range']
  have hsplit : List.range' 0 n
      = List.range' 0 ((k - 1) * 100)
        ++ List.range' (0 + (k - 1) * 100) (n - (k - 1) * 100) := by
    rw [List.range'_append_1]
    congr 1
    omega
  rw [hsplit]
  rw [ingestFrom_blocks (fun c => c == k) (k - 1) 0 _ initIngest (by omega)
    (fun t ht => by
      show (((0 : Nat) + t + 1 == k) = false)
      rw [beq_eq_false_iff_ne]
      omega)]
  rw [hst, Nat.zero_add]
  have hone : List.range' ((k - 1) * 100) (n - (k - 1) * 100)
      = (k - 1) * 100 :: List.range' ((k - 1) * 100 + 1) (n - (k - 1) * 100 - 1) := by
    have h2 : n - (k - 1) * 100 = (n - (k - 1) * 100 - 1) + 1 := by omega
    conv_lhs => rw [h2]
    rw [List.range'_succ]
  rw [hone]
  rw [ingestFrom_cons_commit _ _ _ _ (Nat.mul_mod_left _ _)]
  have hbeq : ((k - 1 + 1 == k) = true) := by
    rw [beq_iff_eq]
    omega
  simp only [tryCommit, hbeq, if_true]
  have h3 : k - 1 + 1 = k := by omega
  simp [h3]

/-- C1 counterexample: on a 200-record stream whose second commit raises, the
code leaves exactly 1 record committed (the record committed at position 0),
not `(2 - 1) * 100 = 100` as claimed. -/
theorem from_loader_commit_count_counterexample :
    from_loader_ingest (fun c => c == 2) 200 = .error ⟨1, 0, 2⟩
      ∧ (1 : Nat) ≠ (2 - 1) * 100 :=
  ⟨rfl, by decide⟩

/-- Witness for `from_loader_commit_failure` at a 250-record stream whose
third commit raises: 201 records stay committed. -/
theorem from_loader_commit_failure_witness :
    ((1 : Nat) ≤ 3 ∧ (3 - 1) * 100 < 250)
      ∧ from_loader_ingest (fun c => c == 3) 250
          = .error ⟨committedBeforeCommit 3, 0, 3⟩ :=
  ⟨by decide, from_loader_commit_failure 250 3 (by decide) (by decide)⟩

/-- Every node ends up in exactly one batch, in stream order. -/
theorem vocabLoop_join {α : Type} (B : Nat) :
    ∀ (xs : List α) (i : Nat) (buf : List α),
      (vocabLoop B xs i buf).flatten = buf ++ xs := by
  intro xs
  induction xs with
  | nil =>
    intro i buf
    by_cases hb : buf.isEmpty
    · have hb2 : buf = [] := List.isEmpty_iff.mp hb
      subst hb2
      simp [vocabLoop]
    · have hb2 : buf.isEmpty = false := by simpa using hb
      simp [vocabLoop, hb2]
  | cons x xs ih =>
    intro i buf
    by_cases hi : (i % B == 0) = true
    · simp [vocabLoop, hi, ih]
    · have hi2 : (i % B == 0) = false := by simpa using hi
      simp [vocabLoop, hi2, ih]

/-- The loop's behaviour depends on the index only through `i % B`. -/
theorem vocabLoop_shift {α : Type} (B : Nat) :
    ∀ (xs : List α) (i : Nat) (buf : List α),
      vocabLoop B xs (i + B) buf = vocabLoop B xs i buf := by
  intro xs
  induction xs with
  | nil => intro i buf; rfl
  | cons x xs ih =>
    intro i buf
    simp only [vocabLoop, Nat.add_mod_right]
    have he : i + B + 1 = i + 1 + B := by omega
    rw [he]
    simp only [ih]

/-- A run of indices with no flush boundary only accumulates the buffer. -/
theorem vocabLoop_no_flush {α : Type} (B : Nat) :
    ∀ (ys : List α) (i : Nat) (buf rest : List α),
      (∀ t, t < ys.length → (i + t) % B ≠ 0) →
      vocabLoop B (ys ++ rest) i buf = vocabLoop B rest (i + ys.length) (buf ++ ys) := by
  intro ys
  induction ys with
  | nil => intro i buf rest _; simp
  | cons y ys ih =>
    intro i buf rest h
    have hi : (i % B == 0) = false := by
      have := h 0 (Nat.succ_pos _)
      simpa using this
    simp only [List.cons_append, vocabLoop, hi, Bool.false_eq_true, if_false,
      List.append_eq]
    rw [ih (i + 1) (buf ++ [y]) rest (fun t ht => by
      have h2 := h (t + 1) (Nat.succ_lt_succ ht)
      have he : i + 1 + t = i + (t + 1) := by omega
      rw [he]; exact h2)]
    simp only [List.append_assoc, List.singleton_append, List.length_cons]
    congr 1
    omega

/-- One full batch after the initial flush: starting at index 1 with an empty
buffer, `B` nodes are collected and flushed exactly when the index reaches
`B`. -/
theorem vocabLoop_block {α : Type} (B : Nat) (hB : 1 ≤ B) (ys rest : List α)
    (hlen : ys.length = B) :
    vocabLoop B (ys ++ rest) 1 ([] : List α) = ys :: vocabLoop B rest 1 ([] : List α) := by
  have hys : ys ≠ [] := by
    intro h
    subst h
    simp at hlen
    omega
  have hdec : ys.dropLast ++ [ys.getLast hys] = ys := List.dropLast_append_getLast hys
  have hdl : ys.dropLast.length = B - 1 := by rw [List.length_dropLast, hlen]
  conv_lhs => rw [← hdec]
  rw [List.append_assoc]
  rw [vocabLoop_no_flush B ys.dropLast 1 [] _ (fun t ht => by
    rw [hdl] at ht
    have h1 : 1 + t < B := by omega
    have h2 : (1 + t) % B = 1 + t := Nat.mod_eq_of_lt h1
    omega)]
  rw [show 1 + ys.dropLast.length = B by omega]
  rw [List.singleton_append]
  simp only [vocabLoop, Nat.mod_self, beq_self_eq_true, if_true, List.nil_append]
  rw [hdec]
  congr 1
  rw [show B + 1 = 1 + B by omega, vocabLoop_shift]

/-- The batches produced after the initial flush (loop resumed at index 1 with
an empty buffer) are non-empty, of size at most `B`, and there are
`⌈m / B⌉ = (m + B - 1) / B` of them for a remaining stream of length `m`. -/
theorem vocabLoop_tail_facts {α : Type} (B : Nat) (hB : 1 ≤ B) :
    ∀ (m : Nat) (rest : List α), rest.length = m →
      (∀ b ∈ vocabLoop B rest 1 ([] : List α), b ≠ [] ∧ b.length ≤ B)
        ∧ (vocabLoop B rest 1 ([] : List α)).length = (m + B - 1) / B := by
  intro m
  induction m using Nat.strong_induction_on with
  | _ m ih =>
    intro rest hlen
    rcases Nat.lt_or_ge m B with hm | hm
    · rcases Nat.eq_zero_or_pos m with h0 | h1
      · subst h0
        have hnil : rest = [] := List.length_eq_zero.mp hlen
        subst hnil
        refine ⟨fun b hb => absurd hb (by simp [vocabLoop]), ?_⟩
        have hd : (B - 1) / B = 0 := Nat.div_eq_of_lt (by omega)
        simp [vocabLoop, hd]
      · have hrun : vocabLoop B rest 1 ([] : List α) = [rest] := by
          have hr : rest ++ ([] : List α) = rest := List.append_nil rest
          have := vocabLoop_no_flush B rest 1 [] [] (fun t ht => by
            rw [hlen] at ht
            have hlt : 1 + t < B := by omega
            have := Nat.mod_eq_of_lt hlt
            omega)
          rw [hr] at this
          rw [this, List.nil_append]
          have hne : rest ≠ [] := by
            intro hcon
            subst hcon
            simp at hlen
            omega
          simp [vocabLoop, hne]
        rw [hrun]
        refine ⟨fun b hb => ?_, ?_⟩
        · have hb2 : b = rest := by simpa using hb
          subst hb2
          constructor
          · intro hcon
            subst hcon
            simp at hlen
            omega
          · omega
        · simp
          exact (Nat.div_eq_of_lt_le (by omega) (by omega)).symm
    · have hsplit : rest = rest.take B ++ rest.drop B := (List.take_append_drop B rest).symm
      have htl : (rest.take B).length = B := by
        rw [List.length_take]
        omega
      have hdl : (rest.drop B).length = m - B := by
        rw [List.length_drop, hlen]
      have hloop : vocabLoop B rest 1 ([] : List α)
          = rest.take B :: vocabLoop B (rest.drop B) 1 ([] : List α) := by
        conv_lhs => rw [hsplit]
        exact vocabLoop_block B hB _ _ htl
      rw [hloop]
      obtain ⟨hsz, hcnt⟩ := ih (m - B) (by omega) (rest.drop B) hdl
      refine ⟨fun b hb => ?_, ?_⟩
      · rcases List.mem_cons.mp hb with hb1 | hb2
        · subst hb1
          refine ⟨?_, by rw [htl]⟩
          intro hcon
          have := congrArg List.length hcon
          rw [htl] at this
          simp at this
          omega
        · exact hsz b hb2
      · rw [List.length_cons, hcnt]
        have he : m + B - 1 = (m - B + B - 1) + B := by omega
        rw [he, Nat.add_div_right _ (by omega)]

/-- C2 (amended): for batch size `B ≥ 1`, the `vocab.extend` calls cover all
`N` nodes exactly once in stream order, no call is empty, each carries at most
`B` nodes, and the first call carries exactly the first node — the loop
flushes when the 0-based index satisfies `i % B == 0`, i.e. when the running
count is one more than a multiple of `B`. The number of calls is
`1 + ⌈(N - 1) / B⌉` for `N ≥ 1` (and `0` for `N = 0`), which exceeds
`⌈N / B⌉` by one except when `N = 0` or `N ≡ 1 (mod B)`. -/
theorem get_vocab_batching (B : Nat) (hB : 1 ≤ B) (ns : List Nat) :
    (extendCalls B ns).flatten = ns
      ∧ (∀ b ∈ extendCalls B ns, b ≠ [] ∧ b.length ≤ B)
      ∧ (extendCalls B ns).length
          = (if ns.length = 0 then 0 else 1 + (ns.length - 1 + B - 1) / B)
      ∧ (extendCalls B ns).head? = ns.head?.map (fun x => [x]) := by
  refine ⟨by simpa [extendCalls] using vocabLoop_join B ns 0 [], ?_⟩
  cases ns with
  | nil =>
    refine ⟨fun b hb => absurd hb (by simp [extendCalls, vocabLoop]), ?_, ?_⟩
    · simp [extendCalls, vocabLoop]
    · simp [extendCalls, vocabLoop]
  | cons x rest =>
    have hx : extendCalls B (x :: rest) = [x] :: vocabLoop B rest 1 [] := by
      simp [extendCalls, vocabLoop]
    obtain ⟨hsz, hcnt⟩ := vocabLoop_tail_facts B hB rest.length rest rfl
    rw [hx]
    refine ⟨?_, ?_, ?_⟩
    · intro b hb
      rcases List.mem_cons.mp hb with hb1 | hb2
      · subst hb1
        exact ⟨by simp, by simpa using hB⟩
      · exact hsz b hb2
    · rw [List.length_cons, List.length_cons, hcnt]
      rw [if_neg (Nat.succ_ne_zero _)]
      rw [show rest.length + 1 - 1 = rest.length by omega, Nat.add_comm]
    · simp

/-- C2 counterexample: with the source's actual batch size `B = 10000` and a
2-node stream, `get_vocab` issues 2 extend calls (`[[n0], [n1]]`), not
`⌈2 / 10000⌉ = 1` as claimed, and the first flush carries 1 node, not a full
multiple-of-`B` batch. -/
theorem get_vocab_extend_count_counterexample :
    extendCalls 10000 ([0, 1] : List Nat) = [[0], [1]]
      ∧ (extendCalls 10000 ([0, 1] : List Nat)).length = 2
      ∧ (2 + 10000 - 1) / 10000 = 1
      ∧ (2 : Nat) ≠ 1 :=
  ⟨rfl, rfl, by decide, by decide⟩

/-- Witness for `get_vocab_batching` at `B = 3` on a 6-node stream (batches
`[[10], [11, 12, 13], [14, 15]]`). -/
theorem get_vocab_batching_witness :
    (1 : Nat) ≤ 3
      ∧ ((extendCalls 3 ([10, 11, 12, 13, 14, 15] : List Nat)).flatten
            = [10, 11, 12, 13, 14, 15]
        ∧ (∀ b ∈ extendCalls 3 ([10, 11, 12, 13, 14, 15] : List Nat),
            b ≠ [] ∧ b.length ≤ 3)
        ∧ (extendCalls 3 ([10, 11, 12, 13, 14, 15] : List Nat)).length
            = (if ([10, 11, 12, 13, 14, 15] : List Nat).length = 0 then 0
                else 1 + (([10, 11, 12, 13, 14, 15] : List Nat).length - 1 + 3 - 1) / 3)
        ∧ (extendCalls 3 ([10, 11, 12, 13, 14, 15] : List Nat)).head?
            = ([10, 11, 12, 13, 14, 15] : List Nat).head?.map (fun x => [x])) :=
  ⟨by decide, get_vocab_batching 3 (by decide) [10, 11, 12, 13, 14, 15]⟩

/-- C3: materialization sets `frozen` only after the entire edge stream has
been added: a failure partway leaves the flag `false` (the error state), and
the next open, finding the flag `false`, performs a full rebuild (scans again
and only then freezes); an uninterrupted run from an unfrozen index adds every
edge and freezes. -/
theorem index_freeze_on_failure (edges : List (Nat × Nat × Nat)) (idx : IndexState)
    (j : Nat) (hf : idx.frozen = false) :
    ∃ st, getOrCreateIndex edges (some j) idx = .error st
      ∧ st.frozen = false
      ∧ getOrCreateIndex edges none st
          = .ok ⟨true, st.contents ++ edges, st.scanCount + 1⟩
      ∧ getOrCreateIndex edges none idx
          = .ok ⟨true, idx.contents ++ edges, idx.scanCount + 1⟩ := by
  refine ⟨⟨idx.frozen, idx.contents ++ edges.take j, idx.scanCount + 1⟩, ?_, hf, ?_, ?_⟩
  · simp [getOrCreateIndex, hf]
  · simp [getOrCreateIndex, hf]
  · simp [getOrCreateIndex, hf]

/-- Witness for `index_freeze_on_failure`: one edge, failure after 0 adds. -/
theorem index_freeze_on_failure_witness :
    ∃ st, getOrCreateIndex [(1, 2, 3)] (some 0) ⟨false, [], 0⟩ = .error st
      ∧ st.frozen = false
      ∧ getOrCreateIndex [(1, 2, 3)] none st
          = .ok ⟨true, st.contents ++ [(1, 2, 3)], st.scanCount + 1⟩
      ∧ getOrCreateIndex [(1, 2, 3)] none ⟨false, [], 0⟩
          = .ok ⟨true, ([] : List (Nat × Nat × Nat)) ++ [(1, 2, 3)], 0 + 1⟩ :=
  index_freeze_on_failure [(1, 2, 3)] ⟨false, [], 0⟩ 0 rfl

/-- C6: the materialization is idempotent: a first call on an unfrozen index
performs exactly one backing-store scan and freezes; any subsequent call is a
pure cache hit, returning the index unchanged with no scan, whatever the
failure schedule. -/
theorem index_freeze_idempotent (edges : List (Nat × Nat × Nat)) (idx : IndexState)
    (hf : idx.frozen = false) :
    ∃ st1, getOrCreateIndex edges none idx = .ok st1
      ∧ st1.scanCount = idx.scanCount + 1
      ∧ (∀ failAt, getOrCreateIndex edges failAt st1 = .ok st1) := by
  refine ⟨⟨true, idx.contents ++ edges, idx.scanCount + 1⟩, ?_, rfl, ?_⟩
  · simp [getOrCreateIndex, hf]
  · intro failAt
    simp [getOrCreateIndex]

/-- Witness for `index_freeze_idempotent`: two edges from a fresh index. -/
theorem index_freeze_idempotent_witness :
    ∃ st1, getOrCreateIndex [(1, 2, 3), (4, 5, 6)] none ⟨false, [], 0⟩ = .ok st1
      ∧ st1.scanCount = 0 + 1
      ∧ (∀ failAt, getOrCreateIndex [(1, 2, 3), (4, 5, 6)] failAt st1 = .ok st1) :=
  index_freeze_idempotent [(1, 2, 3), (4, 5, 6)] ⟨false, [], 0⟩ rfl

/-- Only `moveTmp` ever touches the final path. -/
theorem foldl_no_move_final (acts : List VAct) :
    ∀ fs : VocabFS, VAct.moveTmp ∉ acts →
      ((acts.foldl applyVAct fs).final = fs.final) := by
  induction acts with
  | nil => intro fs _; rfl
  | cons a acts ih =>
    intro fs h
    rw [List.foldl_cons, ih _ (fun hc => h (List.mem_cons_of_mem a hc))]
    cases a with
    | removeTmp => rfl
    | initTmp => rfl
    | writeBatch b => rfl
    | moveTmp => exact absurd (List.mem_cons_self _ _) h

/-- Writing a sequence of batches appends their concatenation to the temp
file. -/
theorem foldl_writeBatches (bs : List (List Nat)) :
    ∀ (l : List Nat) (f : Option (List Nat)),
      (bs.map VAct.writeBatch).foldl applyVAct ⟨f, some l⟩
        = ⟨f, some (l ++ bs.flatten)⟩ := by
  induction bs with
  | nil => intro l f; simp
  | cons b bs ih =>
    intro l f
    simp only [List.map_cons, List.foldl_cons]
    have h1 : applyVAct ⟨f, some l⟩ (VAct.writeBatch b) = ⟨f, some (l ++ b)⟩ := rfl
    rw [h1, ih (l ++ b) f]
    simp [List.append_assoc]

/-- A full `get_vocab` run on a filesystem with no final vocabulary ends with
the complete vocabulary at the final path and no temp file, regardless of any
stale temp content. -/
theorem runVocab_builds (fs : VocabFS) (B : Nat) (ns : List Nat)
    (hfin : fs.final = none) :
    runVocab fs B ns = ⟨some ns, none⟩ := by
  obtain ⟨f0, t0⟩ := fs
  simp only at hfin
  subst hfin
  have hflat : (extendCalls B ns).flatten = ns := by
    simpa [extendCalls] using vocabLoop_join B ns 0 []
  cases t0 with
  | none =>
    simp only [runVocab, vocabActions, Option.isSome_none, Bool.false_eq_true, if_false,
      List.nil_append, List.cons_append, List.foldl_cons, List.foldl_append]
    rw [show applyVAct ⟨none, none⟩ VAct.initTmp = ⟨none, some []⟩ from rfl]
    rw [foldl_writeBatches (extendCalls B ns) [] none]
    simp [applyVAct, hflat]
  | some l =>
    simp only [runVocab, vocabActions, Option.isSome_none, Option.isSome_some,
      Bool.false_eq_true, if_false, if_true, List.cons_append, List.nil_append,
      List.foldl_cons, List.foldl_append]
    rw [show applyVAct (applyVAct ⟨none, some l⟩ VAct.removeTmp) VAct.initTmp
        = ⟨none, some []⟩ from rfl]
    rw [foldl_writeBatches (extendCalls B ns) [] none]
    simp [applyVAct, hflat]

/-- In a run that rebuilds, the `moveTmp` is the single last action. -/
theorem vocabActions_split (fs : VocabFS) (B : Nat) (ns : List Nat)
    (hfin : fs.final = none) :
    ∃ pre, vocabActions fs B ns = pre ++ [VAct.moveTmp] ∧ VAct.moveTmp ∉ pre := by
  refine ⟨(if fs.tmp.isSome then [VAct.removeTmp] else [])
    ++ [VAct.initTmp] ++ (extendCalls B ns).map VAct.writeBatch, ?_, ?_⟩
  · simp [vocabActions, hfin, List.append_assoc]
  · intro hmem
    rcases List.mem_append.mp hmem with hmem2 | hmem3
    · rcases List.mem_append.mp hmem2 with hmem4 | hmem5
      · rcases Bool.eq_false_or_eq_true fs.tmp.isSome with ht | ht
        · rw [ht] at hmem4
          simp at hmem4
        · rw [ht] at hmem4
          simp at hmem4
      · simp at hmem5
    · obtain ⟨b, _, hb⟩ := List.mem_map.mp hmem3
      exact VAct.noConfusion hb

/-- C4: the final vocabulary path stays absent throughout an interrupted
build (the atomic move is the last action, and stale-temp deletion is the
first when a stale temp exists), and a subsequent `get_vocab` from the
interrupted state rebuilds from scratch, discarding the stale temp file and
ending with the complete vocabulary at the final path and no temp file. -/
theorem vocab_build_atomicity (fs : VocabFS) (B : Nat) (ns : List Nat) (k : Nat)
    (hfin : fs.final = none) (hk : k < (vocabActions fs B ns).length) :
    (runVocabInterrupted fs B ns k).final = none
      ∧ runVocab (runVocabInterrupted fs B ns k) B ns = ⟨some ns, none⟩
      ∧ (vocabActions fs B ns).getLast? = some VAct.moveTmp
      ∧ (fs.tmp.isSome = true → (vocabActions fs B ns).head? = some VAct.removeTmp) := by
  obtain ⟨pre, hsplit, hpre⟩ := vocabActions_split fs B ns hfin
  have hfi : (runVocabInterrupted fs B ns k).final = none := by
    unfold runVocabInterrupted
    rw [hsplit]
    have hkle : k ≤ pre.length := by
      rw [hsplit] at hk
      simp at hk
      omega
    rw [List.take_append_of_le_length hkle]
    rw [foldl_no_move_final _ _ (fun hc => hpre (List.take_subset k pre hc))]
    exact hfin
  refine ⟨hfi, runVocab_builds _ B ns hfi, ?_, ?_⟩
  · rw [hsplit, List.getLast?_concat]
  · intro ht
    simp [vocabActions, hfin, ht]

/-- Witness for `vocab_build_atomicity`: a build over nodes `[1, 2, 3]` with
batch size 2 and a stale temp `[9]`, interrupted after 3 of its 5 actions. -/
theorem vocab_build_atomicity_witness :
    (VocabFS.final ⟨none, some [9]⟩ = none
        ∧ 3 < (vocabActions ⟨none, some [9]⟩ 2 [1, 2, 3]).length)
      ∧ ((runVocabInterrupted ⟨none, some [9]⟩ 2 [1, 2, 3] 3).final = none
        ∧ runVocab (runVocabInterrupted ⟨none, some [9]⟩ 2 [1, 2, 3] 3) 2 [1, 2, 3]
            = ⟨some [1, 2, 3], none⟩
        ∧ (vocabActions ⟨none, some [9]⟩ 2 [1, 2, 3]).getLast? = some VAct.moveTmp
        ∧ ((Option.some [9]).isSome = true →
            (vocabActions ⟨none, some [9]⟩ 2 [1, 2, 3]).head? = some VAct.removeTmp)) :=
  ⟨⟨rfl, by decide⟩, vocab_build_atomicity ⟨none, some [9]⟩ 2 [1, 2, 3] 3 rfl (by decide)⟩

/-- C5 counterexample: for the identifier `"foo"` with no store file on an
empty filesystem and creation not requested, `get_kb_path` is not an error: it
returns the canonical path without initializing anything. -/
theorem get_kb_path_no_error_counterexample :
    get_kb_path [] (.str "foo") (some "cache") false = .ok ("cache/kb/foo.db", [])
      ∧ get_kb_path [] (.str "foo") (some "cache") false ≠ .error PyError.valueError
      ∧ get_kb_path [] (.str "foo") (some "cache") false ≠ .error PyError.typeError
      ∧ get_kb_path [] (.str "foo") (some "cache") false ≠ .error PyError.attributeError := by
  refine ⟨rfl, ?_, ?_, ?_⟩ <;> decide

/-- C5 (amended): for an identifier string with no existing store file, when
creation is requested a fresh empty store is initialized at
`<cache_root>/kb/<identifier>.db`; when creation is not requested this is NOT
an error: the same canonical path is returned and nothing is created. The
`ValueError("invalid path")` is raised only when the argument is a `Path`
(not a `str`) that does not exist. -/
theorem get_kb_path_resolution (fs : FS) (s cd : String)
    (hno : fs.pathExists (withNameDb s) = false)
    (hno2 : fs.pathExists (cd ++ "/kb" ++ "/" ++ s ++ ".db") = false) :
    get_kb_path fs (.str s) (some cd) true
        = .ok (cd ++ "/kb" ++ "/" ++ s ++ ".db",
            fs.createFile (cd ++ "/kb" ++ "/" ++ s ++ ".db"))
      ∧ get_kb_path fs (.str s) (some cd) false
          = .ok (cd ++ "/kb" ++ "/" ++ s ++ ".db", fs)
      ∧ (∀ p : String, fs.pathExists (withNameDb p) = false →
          get_kb_path fs (.path p) (some cd) false = .error .valueError) := by
  refine ⟨?_, ?_, ?_⟩
  · simp [get_kb_path, get_cache_dir, NameOrPath.isStr, NameOrPath.raw, hno, hno2]
  · simp [get_kb_path, get_cache_dir, NameOrPath.isStr, NameOrPath.raw, hno, hno2]
  · intro p hp
    simp [get_kb_path, get_cache_dir, NameOrPath.isStr, NameOrPath.raw, hp]
    rfl

/-- Witness for `get_kb_path_resolution` at identifier `"wn"`, cache root
`"c"`, empty filesystem. -/
theorem get_kb_path_resolution_witness :
    (FS.pathExists [] (withNameDb "wn") = false
        ∧ FS.pathExists [] ("c" ++ "/kb" ++ "/" ++ "wn" ++ ".db") = false)
      ∧ (get_kb_path [] (.str "wn") (some "c") true
            = .ok ("c" ++ "/kb" ++ "/" ++ "wn" ++ ".db",
                FS.createFile [] ("c" ++ "/kb" ++ "/" ++ "wn" ++ ".db"))
        ∧ get_kb_path [] (.str "wn") (some "c") false
            = .ok ("c" ++ "/kb" ++ "/" ++ "wn" ++ ".db", [])
        ∧ (∀ p : String, FS.pathExists [] (withNameDb p) = false →
            get_kb_path [] (.path p) (some "c") false = .error .valueError)) :=
  ⟨⟨rfl, rfl⟩, get_kb_path_resolution [] "wn" "c" rfl rfl⟩

/-- C9: on any `KnowledgeBase` instance as constructed by `__init__` (and
hence by `from_loader`, which calls the constructor), `get_node_ids_by_label`
always raises `AttributeError`: it reads `self.label2index`, which no code
path ever assigns. -/
theorem get_node_ids_by_label_attribute_error (path label : String) :
    get_node_ids_by_label (kbInitAttrs path) label = .error .attributeError := rfl

/-- C10: leaving `cache_dir` at its default `None` raises `TypeError`
(`Path(None)` in `get_cache_dir`), for `get_kb_path`, for the `KnowledgeBase`
constructor, and for `from_loader` — which passes no `cache_dir` — whenever
its identifier check passes. -/
theorem cache_dir_none_type_error (fs : FS) (nop : NameOrPath) (create : Bool) :
    get_cache_dir none = .error .typeError
      ∧ get_kb_path fs nop none create = .error .typeError
      ∧ kbInit fs nop create none = .error .typeError
      ∧ (∀ cfg : LoaderConfig, pyIsIdentifier cfg.identifier = true →
          from_loader_init cfg fs = .error .typeError) := by
  refine ⟨rfl, rfl, rfl, ?_⟩
  intro cfg h
  simp only [from_loader_init, h, Bool.not_true, Bool.false_eq_true, if_false]
  rfl

/-- Witness for `cache_dir_none_type_error`: a loader with identifier
`"wordnet"` and version `"1.2.0"` on an empty filesystem. -/
theorem cache_dir_none_type_error_witness :
    pyIsIdentifier "wordnet" = true
      ∧ from_loader_init ⟨"wordnet", some "1.2.0"⟩ [] = .error .typeError :=
  ⟨by decide,
    (cache_dir_none_type_error [] (.str "x") false).2.2.2 ⟨"wordnet", some "1.2.0"⟩
      (by decide)⟩

/-- C7 counterexample: an operation with an empty body acquires one session,
and its trace contains no release — neither on the normal exit path nor on
the exceptional one: the context manager never closes the session it
yielded. -/
theorem session_no_release_counterexample :
    (sessionTrace [] false).count SessEvent.acquireSession = 1
      ∧ (sessionTrace [] false).count SessEvent.releaseSession = 0
      ∧ (sessionTrace [] true).count SessEvent.releaseSession = 0 := by
  decide

/-- C7 (amended): every logical operation acquires a fresh session scoped to
that operation — the context manager contributes exactly one acquisition per
operation, and a constructed object stores no session among its attributes,
so no session is held for the object's whole lifetime — but the manager
performs no release of its own on any exit path (its body is a bare yield
with no `finally`): disposal is left to the language runtime. -/
theorem session_scoped_acquisition (body : List SessEvent) (raises : Bool)
    (path : String) :
    (sessionTrace body raises).count SessEvent.acquireSession
        = 1 + body.count SessEvent.acquireSession
      ∧ (sessionTrace body raises).count SessEvent.releaseSession
          = body.count SessEvent.releaseSession
      ∧ (∀ kv ∈ kbInitAttrs path, kv.2 ≠ PyVal.sessionV) := by
  refine ⟨?_, ?_, ?_⟩
  · cases raises <;>
      simp [sessionTrace, sessionEnter, sessionExitNormal, sessionExitError,
        List.count_append, Nat.add_comm]
  · cases raises <;>
      simp [sessionTrace, sessionEnter, sessionExitNormal, sessionExitError,
        List.count_append]
  · intro kv hkv
    simp only [kbInitAttrs, List.mem_cons, List.not_mem_nil, or_false] at hkv
    rcases hkv with rfl | rfl | rfl | rfl <;> simp

/-- Witness for `session_scoped_acquisition`: empty body, exceptional exit. -/
theorem session_scoped_acquisition_witness :
    (sessionTrace [] true).count SessEvent.acquireSession
        = 1 + ([] : List SessEvent).count SessEvent.acquireSession
      ∧ (sessionTrace [] true).count SessEvent.releaseSession
          = ([] : List SessEvent).count SessEvent.releaseSession
      ∧ (∀ kv ∈ kbInitAttrs "p", kv.2 ≠ PyVal.sessionV) :=
  session_scoped_acquisition [] true "p"

/-- C8 counterexample: with the primary store and all three derived caches on
disk, `cleanup` deletes only the primary store file; the triplet index, node
index and vocabulary files (at their suffix-derived locations) all survive. -/
theorem cleanup_leaves_derived_counterexample :
    indexPath "c/kb/foo.db" = "c/kb/foo-index"
      ∧ nodeIndexPath "c/kb/foo.db" = "c/kb/foo.node.db"
      ∧ vocabPathOf "c/kb/foo.db" = "c/kb/foo-vocab.db"
      ∧ cleanup ["c/kb/foo.db", "c/kb/foo-index", "c/kb/foo.node.db", "c/kb/foo-vocab.db"]
            "c/kb/foo.db"
          = ["c/kb/foo-index", "c/kb/foo.node.db", "c/kb/foo-vocab.db"] := by
  refine ⟨rfl, rfl, rfl, by decide⟩

/-- C8 (amended): `cleanup` removes only the primary store file (and is a
no-op when it does not exist): afterwards the primary path is gone, and every
other path — in particular each derived cache file — exists afterwards iff it
existed before; no other operation of the class deletes a derived cache. -/
theorem cleanup_removes_only_primary (fs : FS) (p : String) :
    (cleanup fs p).pathExists p = false
      ∧ (∀ q, q ≠ p → (cleanup fs p).pathExists q = fs.pathExists q) := by
  constructor
  · cases h : fs.pathExists p with
    | false => simp [cleanup, h]
    | true =>
      simp only [cleanup, h, Bool.not_true, Bool.false_eq_true, if_false]
      simp [FS.pathExists, FS.removeFile, List.contains, List.mem_filter]
  · intro q hq
    cases h : fs.pathExists p with
    | false => simp [cleanup, h]
    | true =>
      simp only [cleanup, h, Bool.not_true, Bool.false_eq_true, if_false]
      simp [FS.pathExists, FS.removeFile, List.contains, List.mem_filter, hq]

/-- Witness for `cleanup_removes_only_primary`: a store with its three
derived caches; the index file survives cleanup. -/
theorem cleanup_removes_only_primary_witness :
    (cleanup ["c/kb/foo.db", "c/kb/foo-index"] "c/kb/foo.db").pathExists "c/kb/foo.db"
        = false
      ∧ (∀ q, q ≠ "c/kb/foo.db" →
          (cleanup ["c/kb/foo.db", "c/kb/foo-index"] "c/kb/foo.db").pathExists q
            = FS.pathExists ["c/kb/foo.db", "c/kb/foo-index"] q) :=
  cleanup_removes_only_primary ["c/kb/foo.db", "c/kb/foo-index"] "c/kb/foo.db"
